import Mathlib

/-!
Shallow embedding of the Circle Hough detector in `src/jsCircleHough.cpp`.

Machine integers (`int32_t`, `uint32_t`) are modelled as `ℤ`; `double`
arithmetic is modelled as exact real arithmetic over `ℝ`.  C integer
division (which truncates toward zero) is `Int.tdiv`.  The `jsProfile`
type comes from the vendored sensor SDK header `joescan_pinchot.h`
(not part of this repository's sources); per the spec it is an ordered
sequence of sample points with signed integer `x`/`y` coordinates, so a
profile is modelled as a `List` of such points.
-/

/-- Truncating conversion of a `double` to `int32_t` (C rounds toward zero). -/
noncomputable def dtoi (r : ℝ) : ℤ :=
  if 0 ≤ r then ⌊r⌋ else -⌊-r⌋

/-- Input constraints record `jsCircleHoughConstraints` from `jsCircleHough.h`:
`uint32_t step_size` and the four signed region bounds. -/
structure jsCircleHoughConstraints where
  step_size : ℤ
  x_lower : ℤ
  x_upper : ℤ
  y_lower : ℤ
  y_upper : ℤ

/-- One sample point of a profile (SDK type `jsProfileData`): signed integer
`x` and `y` in milli-inches.  The `brightness` field is never read by the
detector and is omitted. -/
structure jsProfileData where
  x : ℤ
  y : ℤ

/-- Result record `jsCircleHoughResults` from `jsCircleHough.h`:
`double weight; int32_t x; int32_t y`. -/
structure jsCircleHoughResults where
  weight : ℝ
  x : ℤ
  y : ℤ

/-- Class `SymTriangleDist`: symmetric triangular distribution with mean
`m_mu` and half-width `m_sigma`. -/
structure SymTriangleDist where
  m_mu : ℝ
  m_sigma : ℝ

/-- Member `m_one_over_sigma`, initialized in the constructor as `1.0 / sigma`. -/
noncomputable def SymTriangleDist.m_one_over_sigma (d : SymTriangleDist) : ℝ :=
  1 / d.m_sigma

/-- `SymTriangleDist::pdf`:
`if (fabs(x - m_mu) > m_sigma) return 0.0;`
`px = 1 - fabs((x - m_mu) * m_one_over_sigma); px *= m_one_over_sigma;` -/
noncomputable def SymTriangleDist.pdf (d : SymTriangleDist) (x : ℝ) : ℝ :=
  if |x - d.m_mu| > d.m_sigma then 0
  else (1 - |(x - d.m_mu) * d.m_one_over_sigma|) * d.m_one_over_sigma

/-- Struct `Constraints`: `lower`, `upper` (`int32_t`) and `step_size`
(`uint32_t`). -/
structure Constraints where
  lower : ℤ
  upper : ℤ
  step_size : ℤ

/-- Member `steps`, initialized as `(upper - lower) / step_size`.  In C this
is unsigned division of unsigned operands; on the values reaching it (the
constructor asserts `lower < upper`, and `step_size` is a nonzero `uint32_t`)
it coincides with truncating division. -/
def Constraints.steps (c : Constraints) : ℤ :=
  Int.tdiv (c.upper - c.lower) c.step_size

/-- Class `CircleHough`: constructed from a radius and a constraints record.
The members `m_cx`, `m_cy`, `m_dist`, `m_bx`, `m_by` are all determined by
the constructor arguments and are modelled as derived functions below. -/
structure CircleHough where
  m_radius : ℤ
  cons : jsCircleHoughConstraints

/-- Member `m_cx`, initialized as `Constraints(c->x_lower, c->x_upper, c->step_size)`. -/
def CircleHough.m_cx (h : CircleHough) : Constraints :=
  ⟨h.cons.x_lower, h.cons.x_upper, h.cons.step_size⟩

/-- Member `m_cy`, initialized as `Constraints(c->y_lower, c->y_upper, c->step_size)`. -/
def CircleHough.m_cy (h : CircleHough) : Constraints :=
  ⟨h.cons.y_lower, h.cons.y_upper, h.cons.step_size⟩

/-- Member `m_dist`, initialized as `SymTriangleDist(radius, c->step_size)`. -/
noncomputable def CircleHough.m_dist (h : CircleHough) : SymTriangleDist :=
  ⟨(h.m_radius : ℝ), (h.cons.step_size : ℝ)⟩

/-- `CircleHough::linrange(start, stop, delta, bins)` materializes
`v[0] = start; v[n] = v[n-1] + delta`.  The `stop` argument is unused by the
source and the length argument only sizes the vector, so the model is the
value of the `n`-th entry. -/
noncomputable def linrange (start delta : ℝ) : ℕ → ℝ
  | 0 => start
  | n + 1 => linrange start delta n + delta

/-- Member `m_bx = linrange(m_cx.lower, m_cx.upper, m_cx.step_size, m_cx.steps)`. -/
noncomputable def CircleHough.m_bx (h : CircleHough) (n : ℕ) : ℝ :=
  linrange (h.m_cx.lower : ℝ) (h.m_cx.step_size : ℝ) n

/-- Member `m_by = linrange(m_cy.lower, m_cy.upper, m_cy.step_size, m_cy.steps)`. -/
noncomputable def CircleHough.m_by (h : CircleHough) (n : ℕ) : ℝ :=
  linrange (h.m_cy.lower : ℝ) (h.m_cy.step_size : ℝ) n

/-- `CircleHough::find_index`:
`int32_t i = (point - c.lower) / (int32_t)c.step_size;`
`int32_t low = 0; int32_t high = c.steps - 1;`
`return (i < low) ? low : (high < i) ? high : i;`
The `uint32_t` return value is stored back into `int32_t` variables by the
caller, a round trip that is the identity on the values involved. -/
def find_index (point : ℤ) (c : Constraints) : ℤ :=
  let i : ℤ := Int.tdiv (point - c.lower) c.step_size
  let low : ℤ := 0
  let high : ℤ := c.steps - 1
  if i < low then low else if high < i then high else i

/-- Precomputed `upper_lim = pow(radius + step_size, 2)` in `CircleHough::map`
(the sum is `int32_t` arithmetic, then converted to `double`). -/
noncomputable def CircleHough.upper_lim (h : CircleHough) : ℝ :=
  ((h.m_radius + h.cons.step_size : ℤ) : ℝ) ^ 2

/-- Precomputed `lower_lim = pow(radius - step_size, 2)` in `CircleHough::map`. -/
noncomputable def CircleHough.lower_lim (h : CircleHough) : ℝ :=
  ((h.m_radius - h.cons.step_size : ℤ) : ℝ) ^ 2

/-- Mutable state threaded through the voting loops of `CircleHough::map`:
the bin array `m_bins` (modelled as a total function on `ℤ × ℤ` indices;
the loops only ever touch indices inside the grid) and the local
`results` record. -/
structure MapState where
  bins : ℤ → ℤ → ℝ
  results : jsCircleHoughResults

/-- Pointwise update of the bin array at row `y`, column `x`. -/
def binsUpdate (bins : ℤ → ℤ → ℝ) (y x : ℤ) (v : ℝ) : ℤ → ℤ → ℝ :=
  fun y' x' => if y' = y ∧ x' = x then v else bins y' x'

/-- Body of the innermost loop of `CircleHough::map` at bin `(y, x)`:
compute `a = p.x - m_bx[x]`, `b = p.y - m_by[y]`, `r_sqr = a*a + b*b`;
`continue` when `r_sqr < lower_lim || r_sqr > upper_lim`; otherwise add
`m_dist.pdf(sqrt(r_sqr))` to `m_bins[y][x]` and update `results` when the
bin now strictly exceeds `results.weight`.  The assignments
`results.x = m_bx[x]` and `results.y = m_by[y]` store a `double` into an
`int32_t`, i.e. truncate toward zero. -/
noncomputable def visitBin (h : CircleHough) (p : jsProfileData) (s : MapState)
    (yx : ℤ × ℤ) : MapState :=
  let a : ℝ := (p.x : ℝ) - h.m_bx yx.2.toNat
  let b : ℝ := (p.y : ℝ) - h.m_by yx.1.toNat
  let r_sqr : ℝ := a * a + b * b
  if r_sqr < h.lower_lim ∨ r_sqr > h.upper_lim then s
  else
    let px := h.m_dist.pdf (Real.sqrt r_sqr)
    let v := s.bins yx.1 yx.2 + px
    { bins := binsUpdate s.bins yx.1 yx.2 v
      results :=
        if v > s.results.weight then
          { weight := v
            x := dtoi (h.m_bx yx.2.toNat)
            y := dtoi (h.m_by yx.1.toNat) }
        else s.results }

/-- List of loop indices of `for (int k = a; k < b; k++)`. -/
def intRange (a b : ℤ) : List ℤ :=
  (List.range (b - a).toNat).map (fun (k : ℕ) => a + (k : ℤ))

/-- Row-major list of `(y, x)` pairs visited by the two nested voting loops. -/
def windowPairs (y_start y_end x_start x_end : ℤ) : List (ℤ × ℤ) :=
  (intRange y_start y_end).flatMap fun y =>
    (intRange x_start x_end).map fun x => (y, x)

/-- Body of the per-point loop of `CircleHough::map`: compute the voting
window via `find_index` and run the nested loops over it.  Note the
asymmetric upper y bound `find_index(p.y + step_size, m_cy)`. -/
noncomputable def visitPoint (h : CircleHough) (s : MapState)
    (p : jsProfileData) : MapState :=
  let step_size := h.cons.step_size
  let radius := h.m_radius
  let x_start := find_index (p.x - radius - step_size) h.m_cx
  let x_end := find_index (p.x + radius + step_size) h.m_cx
  let y_start := find_index (p.y - radius - step_size) h.m_cy
  let y_end := find_index (p.y + step_size) h.m_cy
  (windowPairs y_start y_end x_start x_end).foldl (visitBin h p) s

/-- The zeroing loop at the top of `CircleHough::map`:
`std::fill` sets every stored bin (row index `< m_cy.steps`, column index
`< m_cx.steps`) to `0.0`; anything outside the stored array is untouched. -/
noncomputable def zeroBins (h : CircleHough) (bins0 : ℤ → ℤ → ℝ) : ℤ → ℤ → ℝ :=
  fun y x =>
    if 0 ≤ y ∧ y < h.m_cy.steps ∧ 0 ≤ x ∧ x < h.m_cx.steps then 0 else bins0 y x

/-- `CircleHough::map` run from an arbitrary previous content `bins0` of the
member bin buffer `m_bins` (the buffer persists between calls and is zeroed
on entry): initialize `results` to `{0, 0, 0}`, zero the bins, then fold the
per-point voting over the profile. -/
noncomputable def CircleHough.mapFrom (h : CircleHough) (bins0 : ℤ → ℤ → ℝ)
    (profile : List jsProfileData) : MapState :=
  profile.foldl (visitPoint h) ⟨zeroBins h bins0, ⟨0, 0, 0⟩⟩

/-- Final state of `CircleHough::map` on a fresh detector (bin buffer all
zero, as right after construction). -/
noncomputable def CircleHough.mapState (h : CircleHough)
    (profile : List jsProfileData) : MapState :=
  h.mapFrom (fun _ _ => 0) profile

/-- Return value of `CircleHough::map` (and hence of
`jsCircleHoughCalculate`). -/
noncomputable def CircleHough.map (h : CircleHough)
    (profile : List jsProfileData) : jsCircleHoughResults :=
  (h.mapState profile).results

/-- Amount added to bin `(y, x)` by one execution of the innermost loop body
for sample point `p`: `0` when the squared-distance band filter skips the
bin, the kernel vote otherwise. -/
noncomputable def binVote (h : CircleHough) (p : jsProfileData) (y x : ℤ) : ℝ :=
  let a : ℝ := (p.x : ℝ) - h.m_bx x.toNat
  let b : ℝ := (p.y : ℝ) - h.m_by y.toNat
  let r_sqr : ℝ := a * a + b * b
  if r_sqr < h.lower_lim ∨ r_sqr > h.upper_lim then 0
  else h.m_dist.pdf (Real.sqrt r_sqr)

/-- Net contribution of sample point `p` to bin `(y, x)` during one
iteration of the per-point loop: the kernel vote when `(y, x)` lies inside
the point's voting window and passes the squared-distance band filter,
`0` otherwise. -/
noncomputable def voteVal (h : CircleHough) (p : jsProfileData) (y x : ℤ) : ℝ :=
  if find_index (p.y - h.m_radius - h.cons.step_size) h.m_cy ≤ y ∧
      y < find_index (p.y + h.cons.step_size) h.m_cy ∧
      find_index (p.x - h.m_radius - h.cons.step_size) h.m_cx ≤ x ∧
      x < find_index (p.x + h.m_radius + h.cons.step_size) h.m_cx
  then binVote h p y x
  else 0

/-- Kernel vote of the no-pre-filter inner loop at bin `(y, x)`:
always `pdf(sqrt(r_sqr))`, with no band check. -/
noncomputable def binVoteNS (h : CircleHough) (p : jsProfileData) (y x : ℤ) : ℝ :=
  h.m_dist.pdf (Real.sqrt
    (((p.x : ℝ) - h.m_bx x.toNat) * ((p.x : ℝ) - h.m_bx x.toNat) +
      ((p.y : ℝ) - h.m_by y.toNat) * ((p.y : ℝ) - h.m_by y.toNat)))

/-- Outcome of a call to `jsCircleHoughCreate`. -/
inductive CreateResult where
  | handle (h : CircleHough)
  | nullHandle
  | assertAbort
  | undefinedBehavior

/-- `jsCircleHoughCreate` together with the `CircleHough` constructor, with
assert-enabled (`NDEBUG` not defined) semantics.  The member-initializer
list divides by `step_size` before any assert runs, so `step_size == 0` is
undefined behavior; a failed `assert` calls `abort`, which the
`try { new CircleHough(...) } catch (std::exception&)` block cannot catch
(it only converts thrown exceptions into a `nullptr` return); and when
either axis gets `steps == 0`, `linrange` writes `v[0]` on an empty vector,
which is undefined behavior. -/
def jsCircleHoughCreate (radius : ℤ) (c : jsCircleHoughConstraints) : CreateResult :=
  if c.step_size = 0 then .undefinedBehavior
  else if ¬ c.x_lower < c.x_upper then .assertAbort
  else if ¬ c.y_lower < c.y_upper then .assertAbort
  else if ¬ 0 < radius then .assertAbort
  else if (Constraints.mk c.x_lower c.x_upper c.step_size).steps = 0 ∨
          (Constraints.mk c.y_lower c.y_upper c.step_size).steps = 0 then
    .undefinedBehavior
  else .handle ⟨radius, c⟩


/-- Invariant maintained by the voting loops: every stored bin is
non-negative and bounded by the running `results.weight`; the weight is
non-negative; and the `results` record is either still the initial
`{0, 0, 0}` or records the value and truncated center coordinates of some
stored bin with positive value. -/
def GoodState (h : CircleHough) (s : MapState) : Prop :=
  (∀ y x : ℤ, 0 ≤ y → y < h.m_cy.steps → 0 ≤ x → x < h.m_cx.steps →
    0 ≤ s.bins y x ∧ s.bins y x ≤ s.results.weight) ∧
  0 ≤ s.results.weight ∧
  (s.results = ⟨0, 0, 0⟩ ∨
    ∃ y x : ℤ, 0 ≤ y ∧ y < h.m_cy.steps ∧ 0 ≤ x ∧ x < h.m_cx.steps ∧
      s.bins y x = s.results.weight ∧ 0 < s.results.weight ∧
      s.results.x = dtoi (h.m_bx x.toNat) ∧
      s.results.y = dtoi (h.m_by y.toNat))

/-- Agreement of two loop states on everything the voting loops can
observe: equal `results` and equal bins at all stored (in-grid) indices. -/
def BinsAgree (h : CircleHough) (s s' : MapState) : Prop :=
  s.results = s'.results ∧
  ∀ y x : ℤ, 0 ≤ y → y < h.m_cy.steps → 0 ≤ x → x < h.m_cx.steps →
    s.bins y x = s'.bins y x

/-- Integer value of the squared distance `r_sqr` computed by the inner
loop for point `p` and bin `(y, x)` (all coordinates are integers, so the
`double` computation is exact). -/
def sqDist (h : CircleHough) (p : jsProfileData) (y x : ℤ) : ℤ :=
  (p.x - (h.cons.x_lower + x * h.cons.step_size)) ^ 2 +
  (p.y - (h.cons.y_lower + y * h.cons.step_size)) ^ 2

/-- Variant of the innermost loop body with the squared-distance band
pre-filter (`if (r_sqr < lower_lim || r_sqr > upper_lim) continue;`)
removed; everything else is identical to `visitBin`.  Used to state that
the pre-filter is (or is not) semantically transparent. -/
noncomputable def visitBinNoSkip (h : CircleHough) (p : jsProfileData)
    (s : MapState) (yx : ℤ × ℤ) : MapState :=
  let a : ℝ := (p.x : ℝ) - h.m_bx yx.2.toNat
  let b : ℝ := (p.y : ℝ) - h.m_by yx.1.toNat
  let r_sqr : ℝ := a * a + b * b
  let px := h.m_dist.pdf (Real.sqrt r_sqr)
  let v := s.bins yx.1 yx.2 + px
  { bins := binsUpdate s.bins yx.1 yx.2 v
    results :=
      if v > s.results.weight then
        { weight := v
          x := dtoi (h.m_bx yx.2.toNat)
          y := dtoi (h.m_by yx.1.toNat) }
      else s.results }

/-- Per-point loop body of the no-pre-filter variant. -/
noncomputable def visitPointNoSkip (h : CircleHough) (s : MapState)
    (p : jsProfileData) : MapState :=
  let step_size := h.cons.step_size
  let radius := h.m_radius
  let x_start := find_index (p.x - radius - step_size) h.m_cx
  let x_end := find_index (p.x + radius + step_size) h.m_cx
  let y_start := find_index (p.y - radius - step_size) h.m_cy
  let y_end := find_index (p.y + step_size) h.m_cy
  (windowPairs y_start y_end x_start x_end).foldl (visitBinNoSkip h p) s

/-- Final state of the no-pre-filter variant of `CircleHough::map` on a
fresh detector. -/
noncomputable def CircleHough.mapStateNoSkip (h : CircleHough)
    (profile : List jsProfileData) : MapState :=
  profile.foldl (visitPointNoSkip h) ⟨zeroBins h (fun _ _ => 0), ⟨0, 0, 0⟩⟩

/-- Return value of the no-pre-filter variant of `CircleHough::map`. -/
noncomputable def CircleHough.mapNoSkip (h : CircleHough)
    (profile : List jsProfileData) : jsCircleHoughResults :=
  (h.mapStateNoSkip profile).results

/-- The detector of the spec's end-to-end scenarios: radius 1000,
step 100, search region from -500 to 500 on both axes. -/
def demoH : CircleHough :=
  ⟨1000, ⟨100, -500, 500, -500, 500⟩⟩

/-- The four-point-circle profile of spec scenario 4. -/
def fourProfile : List jsProfileData :=
  [⟨1000, 0⟩, ⟨-1000, 0⟩, ⟨0, 1000⟩, ⟨0, -1000⟩]

/-- A detector whose step (200) exceeds its radius (100), over the region
from 0 to 400 on both axes.  Its construction passes every assert. -/
def wideStepH : CircleHough :=
  ⟨100, ⟨200, 0, 400, 0, 400⟩⟩

/-! ### Basic lemmas about the embedded operations -/

lemma dtoi_intCast (n : ℤ) : dtoi ((n : ℤ) : ℝ) = n := by
  unfold dtoi
  split_ifs with h
  · simp
  · simp [← Int.cast_neg]

lemma mem_intRange {a b z : ℤ} : z ∈ intRange a b ↔ a ≤ z ∧ z < b := by
  unfold intRange
  rw [List.mem_map]
  constructor
  · rintro ⟨k, hk, hz⟩
    rw [List.mem_range] at hk
    have hz' : a + (k : ℤ) = z := hz
    omega
  · rintro ⟨h1, h2⟩
    refine ⟨(z - a).toNat, ?_, ?_⟩
    · rw [List.mem_range]
      omega
    · show a + ((z - a).toNat : ℤ) = z
      omega

lemma intRange_nodup (a b : ℤ) : (intRange a b).Nodup := by
  unfold intRange
  have hinj : Function.Injective (fun k : ℕ => a + (k : ℤ)) := by
    intro k1 k2 hk
    have hk' : a + (k1 : ℤ) = a + (k2 : ℤ) := hk
    omega
  exact List.Nodup.map hinj (List.nodup_range _)

lemma mem_windowPairs {ys ye xs xe y x : ℤ} :
    (y, x) ∈ windowPairs ys ye xs xe ↔ (ys ≤ y ∧ y < ye) ∧ (xs ≤ x ∧ x < xe) := by
  unfold windowPairs
  simp only [List.mem_flatMap, List.mem_map, Prod.mk.injEq, mem_intRange]
  constructor
  · rintro ⟨y', hy', x', hx', rfl, rfl⟩
    exact ⟨hy', hx'⟩
  · rintro ⟨hy, hx⟩
    exact ⟨y, hy, x, hx, rfl, rfl⟩

lemma windowPairs_nodup (ys ye xs xe : ℤ) : (windowPairs ys ye xs xe).Nodup := by
  unfold windowPairs
  rw [List.nodup_flatMap]
  constructor
  · intro y _
    have hinj : Function.Injective (fun x : ℤ => (y, x)) := by
      intro x1 x2 hx
      simpa using hx
    exact List.Nodup.map hinj (intRange_nodup _ _)
  · refine List.Pairwise.imp ?_ (intRange_nodup ys ye)
    intro y1 y2 hne q hq1 hq2
    simp only [Function.onFun, List.mem_map] at hq1 hq2
    obtain ⟨x1, _, rfl⟩ := hq1
    obtain ⟨x2, _, h2⟩ := hq2
    exact hne (congrArg Prod.fst h2).symm

lemma linrange_eq (start delta : ℝ) (n : ℕ) :
    linrange start delta n = start + n * delta := by
  induction n with
  | zero => simp [linrange]
  | succ k ih =>
      rw [linrange, ih]
      push_cast
      ring

lemma m_bx_eq (h : CircleHough) (n : ℕ) :
    h.m_bx n = ((h.cons.x_lower + n * h.cons.step_size : ℤ) : ℝ) := by
  rw [CircleHough.m_bx, linrange_eq, CircleHough.m_cx]
  push_cast
  ring

lemma m_by_eq (h : CircleHough) (n : ℕ) :
    h.m_by n = ((h.cons.y_lower + n * h.cons.step_size : ℤ) : ℝ) := by
  rw [CircleHough.m_by, linrange_eq, CircleHough.m_cy]
  push_cast
  ring

lemma dtoi_m_bx (h : CircleHough) (n : ℕ) :
    dtoi (h.m_bx n) = h.cons.x_lower + n * h.cons.step_size := by
  rw [m_bx_eq, dtoi_intCast]

lemma dtoi_m_by (h : CircleHough) (n : ℕ) :
    dtoi (h.m_by n) = h.cons.y_lower + n * h.cons.step_size := by
  rw [m_by_eq, dtoi_intCast]

lemma m_bx_strictMono (h : CircleHough) (hs : 0 < h.cons.step_size)
    {m n : ℕ} (hmn : m < n) : h.m_bx m < h.m_bx n := by
  rw [m_bx_eq, m_bx_eq, Int.cast_lt]
  have hmn' : (m : ℤ) < (n : ℤ) := by exact_mod_cast hmn
  nlinarith

lemma m_by_strictMono (h : CircleHough) (hs : 0 < h.cons.step_size)
    {m n : ℕ} (hmn : m < n) : h.m_by m < h.m_by n := by
  rw [m_by_eq, m_by_eq, Int.cast_lt]
  have hmn' : (m : ℤ) < (n : ℤ) := by exact_mod_cast hmn
  nlinarith

lemma find_index_nonneg {c : Constraints} (hc : 1 ≤ c.steps) (point : ℤ) :
    0 ≤ find_index point c := by
  dsimp only [find_index]
  split_ifs <;> omega

lemma find_index_le_of_steps {c : Constraints} (hc : 1 ≤ c.steps) (point : ℤ) :
    find_index point c ≤ c.steps - 1 := by
  dsimp only [find_index]
  split_ifs <;> omega

lemma find_index_spec {c : Constraints} (hc : 1 ≤ c.steps) (point : ℤ) :
    find_index point c =
      max 0 (min (c.steps - 1) (Int.tdiv (point - c.lower) c.step_size)) := by
  dsimp only [find_index]
  split_ifs <;> omega

/-! ### Lemmas about the triangular kernel -/

lemma pdf_nonneg (d : SymTriangleDist) (hσ : 0 < d.m_sigma) (x : ℝ) :
    0 ≤ d.pdf x := by
  unfold SymTriangleDist.pdf SymTriangleDist.m_one_over_sigma
  split_ifs with hband
  · exact le_rfl
  · push_neg at hband
    have h1 : |(x - d.m_mu) * (1 / d.m_sigma)| ≤ 1 := by
      rw [abs_mul, abs_of_pos (by positivity : (0:ℝ) < 1 / d.m_sigma)]
      rw [mul_one_div, div_le_one hσ]
      exact hband
    have h2 : (0:ℝ) ≤ 1 / d.m_sigma := by positivity
    nlinarith

lemma pdf_le (d : SymTriangleDist) (hσ : 0 < d.m_sigma) (x : ℝ) :
    d.pdf x ≤ 1 / d.m_sigma := by
  unfold SymTriangleDist.pdf SymTriangleDist.m_one_over_sigma
  split_ifs with hband
  · positivity
  · have h1 : (0:ℝ) ≤ |(x - d.m_mu) * (1 / d.m_sigma)| := abs_nonneg _
    have h2 : (0:ℝ) ≤ 1 / d.m_sigma := by positivity
    nlinarith

lemma pdf_lt (d : SymTriangleDist) (hσ : 0 < d.m_sigma) {x : ℝ}
    (hx : x ≠ d.m_mu) : d.pdf x < 1 / d.m_sigma := by
  unfold SymTriangleDist.pdf SymTriangleDist.m_one_over_sigma
  split_ifs with hband
  · positivity
  · have hne : (x - d.m_mu) * (1 / d.m_sigma) ≠ 0 := by
      refine mul_ne_zero (sub_ne_zero.mpr hx) ?_
      positivity
    have h1 : (0:ℝ) < |(x - d.m_mu) * (1 / d.m_sigma)| := abs_pos.mpr hne
    have h2 : (0:ℝ) < 1 / d.m_sigma := by positivity
    nlinarith

lemma pdf_at_mu (d : SymTriangleDist) (hσ : 0 < d.m_sigma) :
    d.pdf d.m_mu = 1 / d.m_sigma := by
  unfold SymTriangleDist.pdf SymTriangleDist.m_one_over_sigma
  rw [if_neg] <;> simp [le_of_lt hσ]

lemma pdf_zero_of_far (d : SymTriangleDist) {x : ℝ}
    (hx : d.m_sigma < |x - d.m_mu|) : d.pdf x = 0 := by
  unfold SymTriangleDist.pdf
  rw [if_pos hx]

/-! ### The bin array as a sum of per-point votes -/

lemma m_dist_sigma (h : CircleHough) : h.m_dist.m_sigma = (h.cons.step_size : ℝ) :=
  rfl

lemma m_dist_mu (h : CircleHough) : h.m_dist.m_mu = (h.m_radius : ℝ) :=
  rfl

lemma binVote_nonneg (h : CircleHough) (hσ : 0 < h.cons.step_size)
    (p : jsProfileData) (y x : ℤ) : 0 ≤ binVote h p y x := by
  dsimp only [binVote]
  split_ifs with hskip
  · exact le_rfl
  · exact pdf_nonneg h.m_dist (by rw [m_dist_sigma]; exact_mod_cast hσ) _

lemma voteVal_nonneg (h : CircleHough) (hσ : 0 < h.cons.step_size)
    (p : jsProfileData) (y x : ℤ) : 0 ≤ voteVal h p y x := by
  dsimp only [voteVal]
  split_ifs with hwin
  · exact binVote_nonneg h hσ p y x
  · exact le_rfl

lemma visitBin_bins (h : CircleHough) (p : jsProfileData) (s : MapState)
    (yx : ℤ × ℤ) :
    (visitBin h p s yx).bins =
      binsUpdate s.bins yx.1 yx.2
        (s.bins yx.1 yx.2 + binVote h p yx.1 yx.2) := by
  dsimp only [visitBin, binVote]
  split_ifs with hskip h2
  · funext y' x'
    dsimp only [binsUpdate]
    split_ifs with he
    · rw [add_zero, he.1, he.2]
    · rfl
  · rfl
  · rfl

lemma visitBin_bins_ne (h : CircleHough) (p : jsProfileData) (s : MapState)
    {yx : ℤ × ℤ} {y x : ℤ} (hne : ¬(y = yx.1 ∧ x = yx.2)) :
    (visitBin h p s yx).bins y x = s.bins y x := by
  rw [visitBin_bins]
  dsimp only [binsUpdate]
  rw [if_neg hne]

lemma visitBin_bins_self (h : CircleHough) (p : jsProfileData) (s : MapState)
    (yx : ℤ × ℤ) :
    (visitBin h p s yx).bins yx.1 yx.2 =
      s.bins yx.1 yx.2 + binVote h p yx.1 yx.2 := by
  rw [visitBin_bins]
  dsimp only [binsUpdate]
  rw [if_pos ⟨rfl, rfl⟩]

lemma foldl_visitBin_bins_notMem (h : CircleHough) (p : jsProfileData)
    (l : List (ℤ × ℤ)) {y x : ℤ} (s : MapState) (hnm : (y, x) ∉ l) :
    (l.foldl (visitBin h p) s).bins y x = s.bins y x := by
  induction l generalizing s with
  | nil => rfl
  | cons q t ih =>
      rw [List.foldl_cons,
        ih _ (fun hm => hnm (List.mem_cons_of_mem _ hm))]
      refine visitBin_bins_ne h p s ?_
      rintro ⟨rfl, rfl⟩
      exact hnm (by simp)

lemma foldl_visitBin_bins_mem (h : CircleHough) (p : jsProfileData)
    (l : List (ℤ × ℤ)) {y x : ℤ} (s : MapState) (hnd : l.Nodup)
    (hm : (y, x) ∈ l) :
    (l.foldl (visitBin h p) s).bins y x =
      s.bins y x + binVote h p y x := by
  induction l generalizing s with
  | nil => cases hm
  | cons q t ih =>
      rw [List.foldl_cons]
      rcases List.mem_cons.mp hm with he | hm'
      · have hq : q = (y, x) := he.symm
        subst hq
        have hnm : (y, x) ∉ t := (List.nodup_cons.mp hnd).1
        rw [foldl_visitBin_bins_notMem h p t _ hnm]
        exact visitBin_bins_self h p s (y, x)
      · have hqt : q ∉ t := (List.nodup_cons.mp hnd).1
        rw [ih _ (List.nodup_cons.mp hnd).2 hm']
        have hne : ¬(y = q.1 ∧ x = q.2) := by
          rintro ⟨rfl, rfl⟩
          exact hqt (by simpa using hm')
        rw [visitBin_bins_ne h p s hne]

lemma visitPoint_bins (h : CircleHough) (s : MapState) (p : jsProfileData)
    (y x : ℤ) :
    (visitPoint h s p).bins y x = s.bins y x + voteVal h p y x := by
  dsimp only [visitPoint, voteVal]
  by_cases hw :
      find_index (p.y - h.m_radius - h.cons.step_size) h.m_cy ≤ y ∧
      y < find_index (p.y + h.cons.step_size) h.m_cy ∧
      find_index (p.x - h.m_radius - h.cons.step_size) h.m_cx ≤ x ∧
      x < find_index (p.x + h.m_radius + h.cons.step_size) h.m_cx
  · rw [if_pos hw]
    exact foldl_visitBin_bins_mem h p _ s (windowPairs_nodup _ _ _ _)
      (mem_windowPairs.mpr ⟨⟨hw.1, hw.2.1⟩, ⟨hw.2.2.1, hw.2.2.2⟩⟩)
  · rw [if_neg hw, add_zero]
    refine foldl_visitBin_bins_notMem h p _ s ?_
    intro hm
    exact hw (by
      obtain ⟨⟨h1, h2⟩, h3, h4⟩ := mem_windowPairs.mp hm
      exact ⟨h1, h2, h3, h4⟩)

lemma foldl_visitPoint_bins (h : CircleHough) (prof : List jsProfileData)
    (s : MapState) (y x : ℤ) :
    (prof.foldl (visitPoint h) s).bins y x =
      s.bins y x + (prof.map (fun p => voteVal h p y x)).sum := by
  induction prof generalizing s with
  | nil => simp
  | cons p t ih =>
      rw [List.foldl_cons, ih, visitPoint_bins]
      simp only [List.map_cons, List.sum_cons]
      ring

lemma mapFrom_bins (h : CircleHough) (bins0 : ℤ → ℤ → ℝ)
    (prof : List jsProfileData) (y x : ℤ) :
    (h.mapFrom bins0 prof).bins y x =
      zeroBins h bins0 y x + (prof.map (fun p => voteVal h p y x)).sum := by
  exact foldl_visitPoint_bins h prof _ y x

lemma mapState_bins (h : CircleHough) (prof : List jsProfileData)
    {y x : ℤ} (hy0 : 0 ≤ y) (hy1 : y < h.m_cy.steps) (hx0 : 0 ≤ x)
    (hx1 : x < h.m_cx.steps) :
    (h.mapState prof).bins y x =
      (prof.map (fun p => voteVal h p y x)).sum := by
  rw [CircleHough.mapState, mapFrom_bins, zeroBins, if_pos ⟨hy0, hy1, hx0, hx1⟩,
    zero_add]

/-! ### The running peak tracker invariant -/

lemma visitBin_results (h : CircleHough) (p : jsProfileData) (s : MapState)
    (yx : ℤ × ℤ) (hw : s.bins yx.1 yx.2 ≤ s.results.weight) :
    (visitBin h p s yx).results =
      if s.bins yx.1 yx.2 + binVote h p yx.1 yx.2 > s.results.weight then
        { weight := s.bins yx.1 yx.2 + binVote h p yx.1 yx.2
          x := dtoi (h.m_bx yx.2.toNat)
          y := dtoi (h.m_by yx.1.toNat) }
      else s.results := by
  dsimp only [visitBin, binVote]
  split_ifs with hskip h2 h3
  · exact absurd (by linarith [h2]) (not_lt.mpr hw)
  · rfl
  · rfl
  · rfl

lemma visitBin_good (h : CircleHough) (p : jsProfileData) (s : MapState)
    (yx : ℤ × ℤ) (hσ : 0 < h.cons.step_size)
    (hy0 : 0 ≤ yx.1) (hy1 : yx.1 < h.m_cy.steps)
    (hx0 : 0 ≤ yx.2) (hx1 : yx.2 < h.m_cx.steps)
    (hs : GoodState h s) : GoodState h (visitBin h p s yx) := by
  obtain ⟨hbins, hw0, hres⟩ := hs
  have hble : s.bins yx.1 yx.2 ≤ s.results.weight :=
    (hbins yx.1 yx.2 hy0 hy1 hx0 hx1).2
  have hb0 : 0 ≤ s.bins yx.1 yx.2 :=
    (hbins yx.1 yx.2 hy0 hy1 hx0 hx1).1
  have hpx : 0 ≤ binVote h p yx.1 yx.2 := binVote_nonneg h hσ p yx.1 yx.2
  have hbinsEq := visitBin_bins h p s yx
  have hresEq := visitBin_results h p s yx hble
  set v := s.bins yx.1 yx.2 + binVote h p yx.1 yx.2 with hv
  by_cases hcmp : v > s.results.weight
  · rw [if_pos hcmp] at hresEq
    refine ⟨?_, ?_, ?_⟩
    · intro y x hy0' hy1' hx0' hx1'
      rw [hbinsEq, hresEq]
      dsimp only [binsUpdate]
      split_ifs with he
      · exact ⟨by linarith, le_rfl⟩
      · exact ⟨(hbins y x hy0' hy1' hx0' hx1').1,
          le_of_lt (lt_of_le_of_lt (hbins y x hy0' hy1' hx0' hx1').2 hcmp)⟩
    · rw [hresEq]
      exact le_trans hw0 (le_of_lt hcmp)
    · right
      refine ⟨yx.1, yx.2, hy0, hy1, hx0, hx1, ?_, ?_, ?_, ?_⟩
      · rw [hbinsEq, hresEq]
        dsimp only [binsUpdate]
        rw [if_pos ⟨rfl, rfl⟩]
      · rw [hresEq]
        exact lt_of_le_of_lt hw0 hcmp
      · rw [hresEq]
      · rw [hresEq]
  · rw [if_neg hcmp] at hresEq
    push_neg at hcmp
    refine ⟨?_, by rw [hresEq]; exact hw0, ?_⟩
    · intro y x hy0' hy1' hx0' hx1'
      rw [hbinsEq, hresEq]
      dsimp only [binsUpdate]
      split_ifs with he
      · exact ⟨by linarith, hcmp⟩
      · exact hbins y x hy0' hy1' hx0' hx1'
    · rcases hres with hres | ⟨yw, xw, hw1, hw2, hw3, hw4, hw5, hw6, hw7, hw8⟩
      · left
        rw [hresEq, hres]
      · right
        refine ⟨yw, xw, hw1, hw2, hw3, hw4, ?_, by rw [hresEq]; exact hw6,
          by rw [hresEq]; exact hw7, by rw [hresEq]; exact hw8⟩
        rw [hbinsEq, hresEq]
        dsimp only [binsUpdate]
        split_ifs with he
        · obtain ⟨he1, he2⟩ := he
          rw [he1, he2] at hw5
          have hpx0 : binVote h p yx.1 yx.2 = 0 := by
            linarith [hcmp, hpx, hv, hw5]
          rw [hv, hpx0, add_zero]
          exact hw5
        · exact hw5

lemma foldl_visitBin_good (h : CircleHough) (p : jsProfileData)
    (l : List (ℤ × ℤ)) (s : MapState) (hσ : 0 < h.cons.step_size)
    (hidx : ∀ q ∈ l, 0 ≤ q.1 ∧ q.1 < h.m_cy.steps ∧
      0 ≤ q.2 ∧ q.2 < h.m_cx.steps)
    (hs : GoodState h s) : GoodState h (l.foldl (visitBin h p) s) := by
  induction l generalizing s with
  | nil => exact hs
  | cons q t ih =>
      rw [List.foldl_cons]
      have hq := hidx q (List.mem_cons_self q t)
      exact ih _ (fun r hr => hidx r (List.mem_cons_of_mem _ hr))
        (visitBin_good h p s q hσ hq.1 hq.2.1 hq.2.2.1 hq.2.2.2 hs)

lemma window_mem_valid (h : CircleHough) (p : jsProfileData)
    (hxs : 1 ≤ h.m_cx.steps) (hys : 1 ≤ h.m_cy.steps) {q : ℤ × ℤ}
    (hq : q ∈ windowPairs
      (find_index (p.y - h.m_radius - h.cons.step_size) h.m_cy)
      (find_index (p.y + h.cons.step_size) h.m_cy)
      (find_index (p.x - h.m_radius - h.cons.step_size) h.m_cx)
      (find_index (p.x + h.m_radius + h.cons.step_size) h.m_cx)) :
    0 ≤ q.1 ∧ q.1 < h.m_cy.steps ∧ 0 ≤ q.2 ∧ q.2 < h.m_cx.steps := by
  have hq' := mem_windowPairs.mp (show (q.1, q.2) ∈ _ from by simpa using hq)
  have h1 := find_index_nonneg hys (p.y - h.m_radius - h.cons.step_size)
  have h2 := find_index_le_of_steps hys (p.y + h.cons.step_size)
  have h3 := find_index_nonneg hxs (p.x - h.m_radius - h.cons.step_size)
  have h4 := find_index_le_of_steps hxs (p.x + h.m_radius + h.cons.step_size)
  omega

lemma visitPoint_good (h : CircleHough) (s : MapState) (p : jsProfileData)
    (hσ : 0 < h.cons.step_size) (hxs : 1 ≤ h.m_cx.steps)
    (hys : 1 ≤ h.m_cy.steps) (hs : GoodState h s) :
    GoodState h (visitPoint h s p) := by
  dsimp only [visitPoint]
  refine foldl_visitBin_good h p _ s hσ ?_ hs
  intro q hq
  exact window_mem_valid h p hxs hys hq

lemma foldl_visitPoint_good (h : CircleHough) (prof : List jsProfileData)
    (s : MapState) (hσ : 0 < h.cons.step_size) (hxs : 1 ≤ h.m_cx.steps)
    (hys : 1 ≤ h.m_cy.steps) (hs : GoodState h s) :
    GoodState h (prof.foldl (visitPoint h) s) := by
  induction prof generalizing s with
  | nil => exact hs
  | cons p t ih =>
      rw [List.foldl_cons]
      exact ih _ (visitPoint_good h s p hσ hxs hys hs)

lemma zeroBins_good (h : CircleHough) (bins0 : ℤ → ℤ → ℝ) :
    GoodState h ⟨zeroBins h bins0, ⟨0, 0, 0⟩⟩ := by
  refine ⟨?_, le_rfl, Or.inl rfl⟩
  intro y x hy0 hy1 hx0 hx1
  dsimp only [zeroBins]
  rw [if_pos ⟨hy0, hy1, hx0, hx1⟩]
  exact ⟨le_rfl, le_rfl⟩

lemma mapFrom_good (h : CircleHough) (bins0 : ℤ → ℤ → ℝ)
    (prof : List jsProfileData) (hσ : 0 < h.cons.step_size)
    (hxs : 1 ≤ h.m_cx.steps) (hys : 1 ≤ h.m_cy.steps) :
    GoodState h (h.mapFrom bins0 prof) := by
  rw [CircleHough.mapFrom]
  exact foldl_visitPoint_good h prof _ hσ hxs hys (zeroBins_good h bins0)

/-! ### Independence from the previous content of the bin buffer -/

lemma visitBin_agree (h : CircleHough) (p : jsProfileData) {s s' : MapState}
    (yx : ℤ × ℤ) (hy0 : 0 ≤ yx.1) (hy1 : yx.1 < h.m_cy.steps)
    (hx0 : 0 ≤ yx.2) (hx1 : yx.2 < h.m_cx.steps)
    (hag : BinsAgree h s s') :
    BinsAgree h (visitBin h p s yx) (visitBin h p s' yx) := by
  obtain ⟨hres, hbins⟩ := hag
  have hb : s.bins yx.1 yx.2 = s'.bins yx.1 yx.2 :=
    hbins yx.1 yx.2 hy0 hy1 hx0 hx1
  unfold BinsAgree
  dsimp only [visitBin]
  by_cases hskip :
      ((p.x : ℝ) - h.m_bx yx.2.toNat) * ((p.x : ℝ) - h.m_bx yx.2.toNat) +
        ((p.y : ℝ) - h.m_by yx.1.toNat) * ((p.y : ℝ) - h.m_by yx.1.toNat) <
          h.lower_lim ∨
      ((p.x : ℝ) - h.m_bx yx.2.toNat) * ((p.x : ℝ) - h.m_bx yx.2.toNat) +
        ((p.y : ℝ) - h.m_by yx.1.toNat) * ((p.y : ℝ) - h.m_by yx.1.toNat) >
          h.upper_lim
  · rw [if_pos hskip, if_pos hskip]
    exact ⟨hres, hbins⟩
  · rw [if_neg hskip, if_neg hskip]
    refine ⟨?_, ?_⟩
    · dsimp only
      rw [hb, hres]
    · intro y x hy0' hy1' hx0' hx1'
      dsimp only [binsUpdate]
      split_ifs with he
      · rw [hb]
      · exact hbins y x hy0' hy1' hx0' hx1'

lemma foldl_visitBin_agree (h : CircleHough) (p : jsProfileData)
    (l : List (ℤ × ℤ)) {s s' : MapState}
    (hidx : ∀ q ∈ l, 0 ≤ q.1 ∧ q.1 < h.m_cy.steps ∧
      0 ≤ q.2 ∧ q.2 < h.m_cx.steps)
    (hag : BinsAgree h s s') :
    BinsAgree h (l.foldl (visitBin h p) s) (l.foldl (visitBin h p) s') := by
  induction l generalizing s s' with
  | nil => exact hag
  | cons q t ih =>
      rw [List.foldl_cons, List.foldl_cons]
      have hq := hidx q (List.mem_cons_self q t)
      exact ih (fun r hr => hidx r (List.mem_cons_of_mem _ hr))
        (visitBin_agree h p q hq.1 hq.2.1 hq.2.2.1 hq.2.2.2 hag)

lemma visitPoint_agree (h : CircleHough) {s s' : MapState} (p : jsProfileData)
    (hxs : 1 ≤ h.m_cx.steps) (hys : 1 ≤ h.m_cy.steps)
    (hag : BinsAgree h s s') :
    BinsAgree h (visitPoint h s p) (visitPoint h s' p) := by
  dsimp only [visitPoint]
  exact foldl_visitBin_agree h p _ (fun q hq => window_mem_valid h p hxs hys hq) hag

lemma foldl_visitPoint_agree (h : CircleHough) (prof : List jsProfileData)
    {s s' : MapState} (hxs : 1 ≤ h.m_cx.steps) (hys : 1 ≤ h.m_cy.steps)
    (hag : BinsAgree h s s') :
    BinsAgree h (prof.foldl (visitPoint h) s) (prof.foldl (visitPoint h) s') := by
  induction prof generalizing s s' with
  | nil => exact hag
  | cons p t ih =>
      rw [List.foldl_cons, List.foldl_cons]
      exact ih (visitPoint_agree h p hxs hys hag)

lemma mapFrom_agree (h : CircleHough) (bins0 bins0' : ℤ → ℤ → ℝ)
    (prof : List jsProfileData) (hxs : 1 ≤ h.m_cx.steps)
    (hys : 1 ≤ h.m_cy.steps) :
    BinsAgree h (h.mapFrom bins0 prof) (h.mapFrom bins0' prof) := by
  rw [CircleHough.mapFrom, CircleHough.mapFrom]
  refine foldl_visitPoint_agree h prof hxs hys ⟨rfl, ?_⟩
  intro y x hy0 hy1 hx0 hx1
  dsimp only [zeroBins]
  rw [if_pos ⟨hy0, hy1, hx0, hx1⟩, if_pos ⟨hy0, hy1, hx0, hx1⟩]

/-! ### Equivalence of the pre-filtered and unfiltered inner loops -/

lemma pdf_zero_of_skip (h : CircleHough) (hσ : 0 < h.cons.step_size)
    (hsr : h.cons.step_size ≤ h.m_radius) {r_sqr : ℝ} (hr0 : 0 ≤ r_sqr)
    (hskip : r_sqr < h.lower_lim ∨ r_sqr > h.upper_lim) :
    h.m_dist.pdf (Real.sqrt r_sqr) = 0 := by
  have hσR : (0:ℝ) < (h.cons.step_size : ℝ) := by exact_mod_cast hσ
  have hsrR : (h.cons.step_size : ℝ) ≤ (h.m_radius : ℝ) := by exact_mod_cast hsr
  rcases hskip with hlow | hhigh
  · rw [CircleHough.lower_lim] at hlow
    have hd0 : (0:ℝ) ≤ ((h.m_radius - h.cons.step_size : ℤ) : ℝ) := by
      push_cast
      linarith
    have hdpos : (0:ℝ) < ((h.m_radius - h.cons.step_size : ℤ) : ℝ) := by
      rcases eq_or_lt_of_le hd0 with he | hlt
      · exfalso
        rw [← he] at hlow
        simp at hlow
        linarith
      · exact hlt
    have hsqrt : Real.sqrt r_sqr < ((h.m_radius - h.cons.step_size : ℤ) : ℝ) :=
      (Real.sqrt_lt' hdpos).mpr hlow
    refine pdf_zero_of_far h.m_dist ?_
    rw [m_dist_mu, m_dist_sigma]
    have hs0 : 0 ≤ Real.sqrt r_sqr := Real.sqrt_nonneg _
    rw [abs_of_nonpos (by push_cast at hsqrt ⊢; linarith)]
    push_cast at hsqrt ⊢
    linarith
  · rw [CircleHough.upper_lim] at hhigh
    have hc0 : (0:ℝ) ≤ ((h.m_radius + h.cons.step_size : ℤ) : ℝ) := by
      push_cast
      linarith
    have hsqrt : ((h.m_radius + h.cons.step_size : ℤ) : ℝ) < Real.sqrt r_sqr :=
      (Real.lt_sqrt hc0).mpr hhigh
    refine pdf_zero_of_far h.m_dist ?_
    rw [m_dist_mu, m_dist_sigma]
    rw [abs_of_nonneg (by push_cast at hsqrt ⊢; linarith)]
    push_cast at hsqrt ⊢
    linarith

lemma visitBinNoSkip_eq (h : CircleHough) (p : jsProfileData) (s : MapState)
    (yx : ℤ × ℤ) (hσ : 0 < h.cons.step_size)
    (hsr : h.cons.step_size ≤ h.m_radius)
    (hw : s.bins yx.1 yx.2 ≤ s.results.weight) :
    visitBinNoSkip h p s yx = visitBin h p s yx := by
  dsimp only [visitBinNoSkip, visitBin]
  by_cases hskip :
      ((p.x : ℝ) - h.m_bx yx.2.toNat) * ((p.x : ℝ) - h.m_bx yx.2.toNat) +
        ((p.y : ℝ) - h.m_by yx.1.toNat) * ((p.y : ℝ) - h.m_by yx.1.toNat) <
          h.lower_lim ∨
      ((p.x : ℝ) - h.m_bx yx.2.toNat) * ((p.x : ℝ) - h.m_bx yx.2.toNat) +
        ((p.y : ℝ) - h.m_by yx.1.toNat) * ((p.y : ℝ) - h.m_by yx.1.toNat) >
          h.upper_lim
  · rw [if_pos hskip]
    have hr0 : (0:ℝ) ≤
        ((p.x : ℝ) - h.m_bx yx.2.toNat) * ((p.x : ℝ) - h.m_bx yx.2.toNat) +
        ((p.y : ℝ) - h.m_by yx.1.toNat) * ((p.y : ℝ) - h.m_by yx.1.toNat) :=
      add_nonneg (mul_self_nonneg _) (mul_self_nonneg _)
    have hpx0 := pdf_zero_of_skip h hσ hsr hr0 hskip
    rw [hpx0, add_zero, if_neg (not_lt.mpr hw)]
    have hupd : binsUpdate s.bins yx.1 yx.2 (s.bins yx.1 yx.2) = s.bins := by
      funext y' x'
      dsimp only [binsUpdate]
      split_ifs with he
      · rw [he.1, he.2]
      · rfl
    rw [hupd]
  · rw [if_neg hskip]

lemma foldl_visitBinNoSkip_eq (h : CircleHough) (p : jsProfileData)
    (l : List (ℤ × ℤ)) (s : MapState) (hσ : 0 < h.cons.step_size)
    (hsr : h.cons.step_size ≤ h.m_radius)
    (hidx : ∀ q ∈ l, 0 ≤ q.1 ∧ q.1 < h.m_cy.steps ∧
      0 ≤ q.2 ∧ q.2 < h.m_cx.steps)
    (hs : GoodState h s) :
    l.foldl (visitBinNoSkip h p) s = l.foldl (visitBin h p) s := by
  induction l generalizing s with
  | nil => rfl
  | cons q t ih =>
      rw [List.foldl_cons, List.foldl_cons]
      have hq := hidx q (List.mem_cons_self q t)
      have hw : s.bins q.1 q.2 ≤ s.results.weight :=
        (hs.1 q.1 q.2 hq.1 hq.2.1 hq.2.2.1 hq.2.2.2).2
      rw [visitBinNoSkip_eq h p s q hσ hsr hw]
      exact ih _ (fun r hr => hidx r (List.mem_cons_of_mem _ hr))
        (visitBin_good h p s q hσ hq.1 hq.2.1 hq.2.2.1 hq.2.2.2 hs)

lemma visitPointNoSkip_eq (h : CircleHough) (s : MapState) (p : jsProfileData)
    (hσ : 0 < h.cons.step_size) (hsr : h.cons.step_size ≤ h.m_radius)
    (hxs : 1 ≤ h.m_cx.steps) (hys : 1 ≤ h.m_cy.steps)
    (hs : GoodState h s) : visitPointNoSkip h s p = visitPoint h s p := by
  dsimp only [visitPointNoSkip, visitPoint]
  exact foldl_visitBinNoSkip_eq h p _ s hσ hsr
    (fun q hq => window_mem_valid h p hxs hys hq) hs

lemma mapStateNoSkip_eq (h : CircleHough) (prof : List jsProfileData)
    (hσ : 0 < h.cons.step_size) (hsr : h.cons.step_size ≤ h.m_radius)
    (hxs : 1 ≤ h.m_cx.steps) (hys : 1 ≤ h.m_cy.steps) :
    h.mapStateNoSkip prof = h.mapState prof := by
  rw [CircleHough.mapStateNoSkip, CircleHough.mapState, CircleHough.mapFrom]
  have hgen : ∀ (t : List jsProfileData) (s : MapState), GoodState h s →
      t.foldl (visitPointNoSkip h) s = t.foldl (visitPoint h) s := by
    intro t
    induction t with
    | nil => intro s _; rfl
    | cons p tl ih =>
        intro s hs
        rw [List.foldl_cons, List.foldl_cons,
          visitPointNoSkip_eq h s p hσ hsr hxs hys hs]
        exact ih _ (visitPoint_good h s p hσ hxs hys hs)
  exact hgen prof _ (zeroBins_good h (fun _ _ => 0))

/-! ### Integer form of the squared-distance computation -/

lemma r_sqr_int (h : CircleHough) (p : jsProfileData) {y x : ℤ}
    (hy : 0 ≤ y) (hx : 0 ≤ x) :
    ((p.x : ℝ) - h.m_bx x.toNat) * ((p.x : ℝ) - h.m_bx x.toNat) +
      ((p.y : ℝ) - h.m_by y.toNat) * ((p.y : ℝ) - h.m_by y.toNat) =
      ((sqDist h p y x : ℤ) : ℝ) := by
  rw [m_bx_eq, m_by_eq, sqDist]
  have hxx : ((x.toNat : ℤ) : ℝ) = (x : ℝ) := by
    rw [Int.toNat_of_nonneg hx]
  have hyy : ((y.toNat : ℤ) : ℝ) = (y : ℝ) := by
    rw [Int.toNat_of_nonneg hy]
  push_cast
  push_cast at hxx hyy
  rw [hxx, hyy]
  ring

lemma lower_lim_int (h : CircleHough) :
    h.lower_lim = (((h.m_radius - h.cons.step_size) ^ 2 : ℤ) : ℝ) := by
  rw [CircleHough.lower_lim]
  push_cast
  ring

lemma upper_lim_int (h : CircleHough) :
    h.upper_lim = (((h.m_radius + h.cons.step_size) ^ 2 : ℤ) : ℝ) := by
  rw [CircleHough.upper_lim]
  push_cast
  ring

lemma binVote_int (h : CircleHough) (p : jsProfileData) {y x : ℤ}
    (hy : 0 ≤ y) (hx : 0 ≤ x) :
    binVote h p y x =
      if sqDist h p y x < (h.m_radius - h.cons.step_size) ^ 2 ∨
         (h.m_radius + h.cons.step_size) ^ 2 < sqDist h p y x
      then 0
      else h.m_dist.pdf (Real.sqrt ((sqDist h p y x : ℤ) : ℝ)) := by
  dsimp only [binVote]
  rw [r_sqr_int h p hy hx, lower_lim_int, upper_lim_int]
  simp only [gt_iff_lt, Int.cast_lt]

lemma binVote_le (h : CircleHough) (hσ : 0 < h.cons.step_size)
    (p : jsProfileData) (y x : ℤ) :
    binVote h p y x ≤ 1 / (h.cons.step_size : ℝ) := by
  have hσR : (0:ℝ) < (h.cons.step_size : ℝ) := by exact_mod_cast hσ
  dsimp only [binVote]
  split_ifs with hskip
  · positivity
  · exact pdf_le h.m_dist (by rw [m_dist_sigma]; exact hσR) _

lemma binVote_lt (h : CircleHough) (hσ : 0 < h.cons.step_size)
    (p : jsProfileData) {y x : ℤ}
    (hy : 0 ≤ y) (hx : 0 ≤ x)
    (hne : sqDist h p y x ≠ h.m_radius ^ 2) :
    binVote h p y x < 1 / (h.cons.step_size : ℝ) := by
  have hσR : (0:ℝ) < (h.cons.step_size : ℝ) := by exact_mod_cast hσ
  rw [binVote_int h p hy hx]
  split_ifs with hskip
  · positivity
  · have hsq0 : (0:ℤ) ≤ sqDist h p y x := by
      rw [sqDist]
      positivity
    have hxne : Real.sqrt ((sqDist h p y x : ℤ) : ℝ) ≠ h.m_dist.m_mu := by
      rw [m_dist_mu]
      intro hcon
      have h1 : ((sqDist h p y x : ℤ) : ℝ) = ((h.m_radius : ℝ)) ^ 2 := by
        rw [← hcon, Real.sq_sqrt (by exact_mod_cast hsq0)]
      have h2 : ((sqDist h p y x : ℤ) : ℝ) = (((h.m_radius ^ 2 : ℤ)) : ℝ) := by
        rw [h1]
        push_cast
        ring
      exact hne (by exact_mod_cast h2)
    exact pdf_lt h.m_dist (by rw [m_dist_sigma]; exact hσR) hxne

lemma voteVal_lt (h : CircleHough) (hσ : 0 < h.cons.step_size)
    (p : jsProfileData) {y x : ℤ}
    (hy : 0 ≤ y) (hx : 0 ≤ x)
    (hne : sqDist h p y x ≠ h.m_radius ^ 2) :
    voteVal h p y x < 1 / (h.cons.step_size : ℝ) := by
  have hσR : (0:ℝ) < (h.cons.step_size : ℝ) := by exact_mod_cast hσ
  dsimp only [voteVal]
  split_ifs with hwin
  · exact binVote_lt h hσ p hy hx hne
  · positivity

/-! ### The returned record from a uniquely maximal bin -/

lemma map_eq_of_unique_max (h : CircleHough) (hσ : 0 < h.cons.step_size)
    (hxs : 1 ≤ h.m_cx.steps) (hys : 1 ≤ h.m_cy.steps)
    (prof : List jsProfileData) {y0 x0 : ℤ} {v : ℝ}
    (hy0 : 0 ≤ y0) (hy1 : y0 < h.m_cy.steps)
    (hx0 : 0 ≤ x0) (hx1 : x0 < h.m_cx.steps)
    (hv : (h.mapState prof).bins y0 x0 = v) (hvpos : 0 < v)
    (hlt : ∀ y x : ℤ, 0 ≤ y → y < h.m_cy.steps → 0 ≤ x → x < h.m_cx.steps →
      ¬(y = y0 ∧ x = x0) → (h.mapState prof).bins y x < v) :
    h.map prof = ⟨v, dtoi (h.m_bx x0.toNat), dtoi (h.m_by y0.toNat)⟩ := by
  have hsteq : h.mapState prof = h.mapFrom (fun _ _ => 0) prof := rfl
  have hmapeq : h.map prof = (h.mapState prof).results := rfl
  obtain ⟨hbins, hw0, hres⟩ := mapFrom_good h (fun _ _ => 0) prof hσ hxs hys
  rw [← hsteq] at hbins hw0 hres
  have hble : v ≤ (h.mapState prof).results.weight := by
    rw [← hv]
    exact (hbins y0 x0 hy0 hy1 hx0 hx1).2
  rcases hres with hz | ⟨yw, xw, hw1, hw2, hw3, hw4, hw5, hw6, hw7, hw8⟩
  · exfalso
    have hwz : (h.mapState prof).results.weight = 0 := by rw [hz]
    rw [hwz] at hble
    linarith
  · by_cases hcase : yw = y0 ∧ xw = x0
    · obtain ⟨rfl, rfl⟩ := hcase
      have hwv : (h.mapState prof).results.weight = v := by
        rw [← hw5, hv]
      have heta : (h.mapState prof).results =
          ⟨(h.mapState prof).results.weight, (h.mapState prof).results.x,
            (h.mapState prof).results.y⟩ := rfl
      rw [hmapeq, heta, hwv, hw7, hw8]
    · have hltw := hlt yw xw hw1 hw2 hw3 hw4 hcase
      rw [hw5] at hltw
      linarith

/-! ### Claim theorems -/

/-- C8: `detect` has no failure mode on well-formed input; in particular a
profile of length zero returns exactly `{weight = 0, x = 0, y = 0}` for
every constructed detector (the embedding of `CircleHough::map` is a total
function, so no profile content signals an error). -/
theorem detect_empty_profile (h : CircleHough) :
    h.map [] = ⟨0, 0, 0⟩ :=
  rfl

/-- C6: for every axis with `count ≥ 1` and every integer coordinate,
including coordinates arbitrarily far below `lower` or above `upper`,
`find_index` returns `clamp((coord - lower) / step, 0, count - 1)` with
truncating integer division, and the result always lies in
`[0, count - 1]`; the operation is total and cannot fail. -/
theorem find_index_clamp (c : Constraints) (hc : 1 ≤ c.steps) (point : ℤ) :
    find_index point c =
      max 0 (min (c.steps - 1) (Int.tdiv (point - c.lower) c.step_size)) ∧
    0 ≤ find_index point c ∧ find_index point c ≤ c.steps - 1 :=
  ⟨find_index_spec hc point, find_index_nonneg hc point,
    find_index_le_of_steps hc point⟩

/-- Witness for `find_index_clamp` at the demo axis (lower -500, upper 500,
step 100, hence 10 bins) and the far-out coordinate 123456789. -/
theorem find_index_clamp_witness :
    1 ≤ (Constraints.mk (-500) 500 100).steps ∧
    (find_index 123456789 (Constraints.mk (-500) 500 100) =
      max 0 (min ((Constraints.mk (-500) 500 100).steps - 1)
        (Int.tdiv (123456789 - (Constraints.mk (-500) 500 100).lower)
          (Constraints.mk (-500) 500 100).step_size)) ∧
    0 ≤ find_index 123456789 (Constraints.mk (-500) 500 100) ∧
    find_index 123456789 (Constraints.mk (-500) 500 100) ≤
      (Constraints.mk (-500) 500 100).steps - 1) :=
  ⟨by decide, find_index_clamp (Constraints.mk (-500) 500 100) (by decide)
    123456789⟩

/-- C4: `jsCircleHoughCreate` never returns a null handle — not even for
invalid inputs.  Invalid constraints hit a failed `assert` (which aborts
rather than throwing, so the surrounding `try`/`catch` cannot convert it
into a `nullptr` return) or undefined behavior (`step_size == 0` divides by
zero in a member initializer; an axis with zero bins makes `linrange` write
`v[0]` on an empty vector). -/
theorem create_never_returns_null (radius : ℤ) (c : jsCircleHoughConstraints) :
    jsCircleHoughCreate radius c ≠ CreateResult.nullHandle := by
  intro hcon
  unfold jsCircleHoughCreate at hcon
  split_ifs at hcon

/-- C2: for every constructed detector and every profile, the weight field
of the returned record equals the maximum value present in the bin array
when voting completes, even though the peak is tracked incrementally with
a strict greater-than update inside the innermost loop. -/
theorem detect_weight_is_bin_max (h : CircleHough)
    (hσ : 0 < h.cons.step_size) (hxs : 1 ≤ h.m_cx.steps)
    (hys : 1 ≤ h.m_cy.steps) (prof : List jsProfileData) :
    (∀ y x : ℤ, 0 ≤ y → y < h.m_cy.steps → 0 ≤ x → x < h.m_cx.steps →
      (h.mapState prof).bins y x ≤ (h.map prof).weight) ∧
    (∃ y x : ℤ, 0 ≤ y ∧ y < h.m_cy.steps ∧ 0 ≤ x ∧ x < h.m_cx.steps ∧
      (h.mapState prof).bins y x = (h.map prof).weight) := by
  have hsteq : h.mapState prof = h.mapFrom (fun _ _ => 0) prof := rfl
  have hmapeq : h.map prof = (h.mapState prof).results := rfl
  obtain ⟨hbins, hw0, hres⟩ := mapFrom_good h (fun _ _ => 0) prof hσ hxs hys
  rw [← hsteq] at hbins hw0 hres
  rw [hmapeq]
  constructor
  · intro y x hy0 hy1 hx0 hx1
    exact (hbins y x hy0 hy1 hx0 hx1).2
  · rcases hres with hz | ⟨yw, xw, hw1, hw2, hw3, hw4, hw5, _, _, _⟩
    · refine ⟨0, 0, le_rfl, by omega, le_rfl, by omega, ?_⟩
      have hb := hbins 0 0 le_rfl (by omega) le_rfl (by omega)
      have hwz : (h.mapState prof).results.weight = 0 := by rw [hz]
      rw [hwz]
      exact le_antisymm (hwz ▸ hb.2) hb.1
    · exact ⟨yw, xw, hw1, hw2, hw3, hw4, hw5⟩

/-- Witness for `detect_weight_is_bin_max` at the demo detector and the
single-point profile of spec scenario 1. -/
theorem detect_weight_is_bin_max_witness :
    0 < demoH.cons.step_size ∧ 1 ≤ demoH.m_cx.steps ∧ 1 ≤ demoH.m_cy.steps ∧
    ((∀ y x : ℤ, 0 ≤ y → y < demoH.m_cy.steps → 0 ≤ x →
        x < demoH.m_cx.steps →
        (demoH.mapState [⟨1000, 0⟩]).bins y x ≤
          (demoH.map [⟨1000, 0⟩]).weight) ∧
      (∃ y x : ℤ, 0 ≤ y ∧ y < demoH.m_cy.steps ∧ 0 ≤ x ∧
        x < demoH.m_cx.steps ∧
        (demoH.mapState [⟨1000, 0⟩]).bins y x =
          (demoH.map [⟨1000, 0⟩]).weight)) :=
  ⟨by decide, by decide, by decide,
    detect_weight_is_bin_max demoH (by decide) (by decide) (by decide)
      [⟨1000, 0⟩]⟩

/-- C7: for every constructed detector and every detect call, the returned
`(x, y)` pair is the (stored, truncated-to-`int32_t`) center of some valid
bin, or is `(0, 0)` with weight 0 when no bin received a vote exceeding
zero. -/
theorem detect_center_is_grid_center (h : CircleHough)
    (hσ : 0 < h.cons.step_size) (hxs : 1 ≤ h.m_cx.steps)
    (hys : 1 ≤ h.m_cy.steps) (prof : List jsProfileData) :
    (∃ i j : ℕ, (i : ℤ) < h.m_cx.steps ∧ (j : ℤ) < h.m_cy.steps ∧
      (h.map prof).x = dtoi (h.m_bx i) ∧ (h.map prof).y = dtoi (h.m_by j)) ∨
    ((h.map prof).x = 0 ∧ (h.map prof).y = 0 ∧ (h.map prof).weight = 0) := by
  have hsteq : h.mapState prof = h.mapFrom (fun _ _ => 0) prof := rfl
  have hmapeq : h.map prof = (h.mapState prof).results := rfl
  obtain ⟨hbins, hw0, hres⟩ := mapFrom_good h (fun _ _ => 0) prof hσ hxs hys
  rw [← hsteq] at hbins hw0 hres
  rw [hmapeq]
  rcases hres with hz | ⟨yw, xw, hw1, hw2, hw3, hw4, _, _, hw7, hw8⟩
  · right
    rw [hz]
    exact ⟨rfl, rfl, rfl⟩
  · left
    refine ⟨xw.toNat, yw.toNat, ?_, ?_, hw7, hw8⟩
    · rw [Int.toNat_of_nonneg hw3]
      exact hw4
    · rw [Int.toNat_of_nonneg hw1]
      exact hw2

/-- Witness for `detect_center_is_grid_center` at the demo detector and
spec scenario 1's profile. -/
theorem detect_center_is_grid_center_witness :
    0 < demoH.cons.step_size ∧ 1 ≤ demoH.m_cx.steps ∧ 1 ≤ demoH.m_cy.steps ∧
    ((∃ i j : ℕ, (i : ℤ) < demoH.m_cx.steps ∧ (j : ℤ) < demoH.m_cy.steps ∧
        (demoH.map [⟨1000, 0⟩]).x = dtoi (demoH.m_bx i) ∧
        (demoH.map [⟨1000, 0⟩]).y = dtoi (demoH.m_by j)) ∨
      ((demoH.map [⟨1000, 0⟩]).x = 0 ∧ (demoH.map [⟨1000, 0⟩]).y = 0 ∧
        (demoH.map [⟨1000, 0⟩]).weight = 0)) :=
  ⟨by decide, by decide, by decide,
    detect_center_is_grid_center demoH (by decide) (by decide) (by decide)
      [⟨1000, 0⟩]⟩

/-- C9: `detect` is deterministic and history-independent: its result does
not depend on the content the reused bin buffer had before the call (every
stored bin is zeroed on entry and the peak tracker restarts at
`{0, 0, 0}`), so repeated calls on the same detector — after any earlier
calls — return identical records. -/
theorem detect_prestate_independent (h : CircleHough)
    (hxs : 1 ≤ h.m_cx.steps) (hys : 1 ≤ h.m_cy.steps)
    (bins0 bins0' : ℤ → ℤ → ℝ) (prof : List jsProfileData) :
    (h.mapFrom bins0 prof).results = (h.mapFrom bins0' prof).results :=
  (mapFrom_agree h bins0 bins0' prof hxs hys).1

/-- Witness for `detect_prestate_independent` at the demo detector with a
dirty pre-state buffer against the all-zero buffer. -/
theorem detect_prestate_independent_witness :
    1 ≤ demoH.m_cx.steps ∧ 1 ≤ demoH.m_cy.steps ∧
    (demoH.mapFrom (fun _ _ => 37) [⟨1000, 0⟩]).results =
      (demoH.mapFrom (fun _ _ => 0) [⟨1000, 0⟩]).results :=
  ⟨by decide, by decide,
    detect_prestate_independent demoH (by decide) (by decide)
      (fun _ _ => 37) (fun _ _ => 0) [⟨1000, 0⟩]⟩

/-! ### Edge bins and axis counts -/

lemma zeroBins_zero (h : CircleHough) (y x : ℤ) :
    zeroBins h (fun _ _ => 0) y x = 0 := by
  dsimp only [zeroBins]
  split_ifs <;> rfl

lemma voteVal_last_col (h : CircleHough) (hxs : 1 ≤ h.m_cx.steps)
    (p : jsProfileData) (y : ℤ) :
    voteVal h p y (h.m_cx.steps - 1) = 0 := by
  dsimp only [voteVal]
  rw [if_neg]
  rintro ⟨-, -, -, h4⟩
  have := find_index_le_of_steps hxs (p.x + h.m_radius + h.cons.step_size)
  omega

lemma voteVal_last_row (h : CircleHough) (hys : 1 ≤ h.m_cy.steps)
    (p : jsProfileData) (x : ℤ) :
    voteVal h p (h.m_cy.steps - 1) x = 0 := by
  dsimp only [voteVal]
  rw [if_neg]
  rintro ⟨-, h2, -, -⟩
  have := find_index_le_of_steps hys (p.y + h.cons.step_size)
  omega

/-- C10: no vote is ever deposited into the last column or the last row of
the bin grid — `find_index` clamps window ends to `count - 1` and the
loops treat the ends as exclusive — so those bins stay `0` through every
`detect` call, and a result with positive weight never reports the last
column's x center or the last row's y center. -/
theorem edge_bins_never_voted (h : CircleHough) (hσ : 0 < h.cons.step_size)
    (hxs : 1 ≤ h.m_cx.steps) (hys : 1 ≤ h.m_cy.steps)
    (prof : List jsProfileData) :
    (∀ y : ℤ, (h.mapState prof).bins y (h.m_cx.steps - 1) = 0) ∧
    (∀ x : ℤ, (h.mapState prof).bins (h.m_cy.steps - 1) x = 0) ∧
    (0 < (h.map prof).weight →
      (h.map prof).x ≠ dtoi (h.m_bx (h.m_cx.steps - 1).toNat) ∧
      (h.map prof).y ≠ dtoi (h.m_by (h.m_cy.steps - 1).toNat)) := by
  have hcol : ∀ y : ℤ, (h.mapState prof).bins y (h.m_cx.steps - 1) = 0 := by
    intro y
    rw [CircleHough.mapState, mapFrom_bins, zeroBins_zero, zero_add]
    have hz : prof.map (fun p => voteVal h p y (h.m_cx.steps - 1)) =
        prof.map (fun _ => (0:ℝ)) := by
      refine List.map_congr_left ?_
      intro p _
      exact voteVal_last_col h hxs p y
    rw [hz]
    simp
  have hrow : ∀ x : ℤ, (h.mapState prof).bins (h.m_cy.steps - 1) x = 0 := by
    intro x
    rw [CircleHough.mapState, mapFrom_bins, zeroBins_zero, zero_add]
    have hz : prof.map (fun p => voteVal h p (h.m_cy.steps - 1) x) =
        prof.map (fun _ => (0:ℝ)) := by
      refine List.map_congr_left ?_
      intro p _
      exact voteVal_last_row h hys p x
    rw [hz]
    simp
  refine ⟨hcol, hrow, ?_⟩
  intro hwpos
  have hsteq : h.mapState prof = h.mapFrom (fun _ _ => 0) prof := rfl
  have hmapeq : h.map prof = (h.mapState prof).results := rfl
  obtain ⟨hbins, hw0, hres⟩ := mapFrom_good h (fun _ _ => 0) prof hσ hxs hys
  rw [← hsteq] at hbins hw0 hres
  rw [hmapeq] at hwpos ⊢
  rcases hres with hz | ⟨yw, xw, hw1, hw2, hw3, hw4, hw5, hw6, hw7, hw8⟩
  · exfalso
    rw [hz] at hwpos
    exact lt_irrefl 0 hwpos
  · have hxwne : xw ≠ h.m_cx.steps - 1 := by
      intro hcon
      rw [hcon] at hw5
      rw [hcol yw] at hw5
      rw [← hw5] at hw6
      exact lt_irrefl 0 hw6
    have hywne : yw ≠ h.m_cy.steps - 1 := by
      intro hcon
      rw [hcon] at hw5
      rw [hrow xw] at hw5
      rw [← hw5] at hw6
      exact lt_irrefl 0 hw6
    constructor
    · rw [hw7, dtoi_m_bx, dtoi_m_bx]
      intro hcon
      have hmul : (xw.toNat : ℤ) * h.cons.step_size =
          ((h.m_cx.steps - 1).toNat : ℤ) * h.cons.step_size := by omega
      have := mul_right_cancel₀ (ne_of_gt hσ) hmul
      omega
    · rw [hw8, dtoi_m_by, dtoi_m_by]
      intro hcon
      have hmul : (yw.toNat : ℤ) * h.cons.step_size =
          ((h.m_cy.steps - 1).toNat : ℤ) * h.cons.step_size := by omega
      have := mul_right_cancel₀ (ne_of_gt hσ) hmul
      omega

/-- Witness for `edge_bins_never_voted` at the demo detector and spec
scenario 1's profile. -/
theorem edge_bins_never_voted_witness :
    0 < demoH.cons.step_size ∧ 1 ≤ demoH.m_cx.steps ∧ 1 ≤ demoH.m_cy.steps ∧
    ((∀ y : ℤ, (demoH.mapState [⟨1000, 0⟩]).bins y (demoH.m_cx.steps - 1) = 0) ∧
     (∀ x : ℤ, (demoH.mapState [⟨1000, 0⟩]).bins (demoH.m_cy.steps - 1) x = 0) ∧
     (0 < (demoH.map [⟨1000, 0⟩]).weight →
       (demoH.map [⟨1000, 0⟩]).x ≠
         dtoi (demoH.m_bx (demoH.m_cx.steps - 1).toNat) ∧
       (demoH.map [⟨1000, 0⟩]).y ≠
         dtoi (demoH.m_by (demoH.m_cy.steps - 1).toNat))) :=
  ⟨by decide, by decide, by decide,
    edge_bins_never_voted demoH (by decide) (by decide) (by decide)
      [⟨1000, 0⟩]⟩

/-- C5 (amended): for every detector built from axes whose construction
preconditions hold and whose step additionally does not exceed the axis
extent (`step ≤ upper - lower`), both counts are at least 1 and the
materialized bin centers are strictly increasing.  (Without the extra
hypothesis the asserts all pass and yet `count = 0`; see the
counterexample.) -/
theorem axis_count_pos_of_step_le_range (h : CircleHough)
    (hσ : 0 < h.cons.step_size)
    (hxlu : h.cons.x_lower < h.cons.x_upper)
    (hylu : h.cons.y_lower < h.cons.y_upper)
    (hxr : h.cons.step_size ≤ h.cons.x_upper - h.cons.x_lower)
    (hyr : h.cons.step_size ≤ h.cons.y_upper - h.cons.y_lower) :
    1 ≤ h.m_cx.steps ∧ 1 ≤ h.m_cy.steps ∧
    StrictMono h.m_bx ∧ StrictMono h.m_by := by
  refine ⟨?_, ?_, fun m n hmn => m_bx_strictMono h hσ hmn,
    fun m n hmn => m_by_strictMono h hσ hmn⟩
  · rw [CircleHough.m_cx, Constraints.steps]
    dsimp only
    rw [Int.tdiv_eq_ediv (by omega) (by omega)]
    rw [Int.le_ediv_iff_mul_le hσ]
    omega
  · rw [CircleHough.m_cy, Constraints.steps]
    dsimp only
    rw [Int.tdiv_eq_ediv (by omega) (by omega)]
    rw [Int.le_ediv_iff_mul_le hσ]
    omega

/-- Witness for `axis_count_pos_of_step_le_range` at the demo detector. -/
theorem axis_count_pos_of_step_le_range_witness :
    0 < demoH.cons.step_size ∧
    demoH.cons.x_lower < demoH.cons.x_upper ∧
    demoH.cons.y_lower < demoH.cons.y_upper ∧
    demoH.cons.step_size ≤ demoH.cons.x_upper - demoH.cons.x_lower ∧
    demoH.cons.step_size ≤ demoH.cons.y_upper - demoH.cons.y_lower ∧
    (1 ≤ demoH.m_cx.steps ∧ 1 ≤ demoH.m_cy.steps ∧
      StrictMono demoH.m_bx ∧ StrictMono demoH.m_by) :=
  ⟨by decide, by decide, by decide, by decide, by decide,
    axis_count_pos_of_step_le_range demoH (by decide) (by decide) (by decide)
      (by decide) (by decide)⟩

/-- Counterexample to C5 as stated: the detector with radius 1000,
step 100 and both axes from 0 to 50 satisfies every construction
precondition the constructor asserts (`lower < upper`, `step > 0`,
`radius > 0`), yet its x axis count is `(50 - 0) / 100 = 0`, not `≥ 1`. -/
theorem axis_count_zero_example :
    0 < (CircleHough.mk 1000 ⟨100, 0, 50, 0, 50⟩).cons.step_size ∧
    0 < (CircleHough.mk 1000 ⟨100, 0, 50, 0, 50⟩).m_radius ∧
    (CircleHough.mk 1000 ⟨100, 0, 50, 0, 50⟩).cons.x_lower <
      (CircleHough.mk 1000 ⟨100, 0, 50, 0, 50⟩).cons.x_upper ∧
    (CircleHough.mk 1000 ⟨100, 0, 50, 0, 50⟩).cons.y_lower <
      (CircleHough.mk 1000 ⟨100, 0, 50, 0, 50⟩).cons.y_upper ∧
    ¬(1 ≤ (CircleHough.mk 1000 ⟨100, 0, 50, 0, 50⟩).m_cx.steps) := by
  decide

/-! ### The band pre-filter: transparency and its limit -/

/-- C3 (amended): the squared-distance pre-filter is semantically
transparent for every detector whose step does not exceed its radius:
`detect` with the skip of out-of-band bins produces exactly the same state
(same bins, same peak) as the variant without the skip, because every
skipped bin would have received a zero kernel vote.  (When step > radius
the kernel's support reaches below `|radius - step|` and the skip drops
non-zero votes; see the counterexample.) -/
theorem band_filter_transparent (h : CircleHough)
    (hσ : 0 < h.cons.step_size) (hsr : h.cons.step_size ≤ h.m_radius)
    (hxs : 1 ≤ h.m_cx.steps) (hys : 1 ≤ h.m_cy.steps)
    (prof : List jsProfileData) :
    h.mapStateNoSkip prof = h.mapState prof ∧
    h.mapNoSkip prof = h.map prof := by
  have hstate := mapStateNoSkip_eq h prof hσ hsr hxs hys
  exact ⟨hstate, congrArg MapState.results hstate⟩

/-- Witness for `band_filter_transparent` at the demo detector and spec
scenario 1's profile. -/
theorem band_filter_transparent_witness :
    0 < demoH.cons.step_size ∧ demoH.cons.step_size ≤ demoH.m_radius ∧
    1 ≤ demoH.m_cx.steps ∧ 1 ≤ demoH.m_cy.steps ∧
    (demoH.mapStateNoSkip [⟨1000, 0⟩] = demoH.mapState [⟨1000, 0⟩] ∧
      demoH.mapNoSkip [⟨1000, 0⟩] = demoH.map [⟨1000, 0⟩]) :=
  ⟨by decide, by decide, by decide, by decide,
    band_filter_transparent demoH (by decide) (by decide) (by decide)
      (by decide) [⟨1000, 0⟩]⟩

lemma wideStep_window :
    windowPairs
      (find_index (0 - wideStepH.m_radius - wideStepH.cons.step_size)
        wideStepH.m_cy)
      (find_index (0 + wideStepH.cons.step_size) wideStepH.m_cy)
      (find_index (50 - wideStepH.m_radius - wideStepH.cons.step_size)
        wideStepH.m_cx)
      (find_index (50 + wideStepH.m_radius + wideStepH.cons.step_size)
        wideStepH.m_cx) = [(0, 0)] := by
  decide

lemma wideStep_map : wideStepH.map [⟨50, 0⟩] = ⟨0, 0, 0⟩ := by
  rw [CircleHough.map, CircleHough.mapState, CircleHough.mapFrom,
    List.foldl_cons, List.foldl_nil]
  dsimp only [visitPoint]
  rw [wideStep_window, List.foldl_cons, List.foldl_nil]
  have hw : (MapState.mk (zeroBins wideStepH fun _ _ => 0) ⟨0, 0, 0⟩).bins
        ((0:ℤ), (0:ℤ)).1 ((0:ℤ), (0:ℤ)).2 ≤
      (MapState.mk (zeroBins wideStepH fun _ _ => 0) ⟨0, 0, 0⟩).results.weight := by
    dsimp only
    rw [zeroBins_zero]
  rw [visitBin_results _ _ _ _ hw]
  have hbv : binVote wideStepH ⟨50, 0⟩ 0 0 = 0 := by
    rw [binVote_int wideStepH ⟨50, 0⟩ le_rfl le_rfl, if_pos (by decide)]
  dsimp only
  rw [zeroBins_zero, hbv, if_neg (by norm_num)]

lemma visitBinNoSkip_results (h : CircleHough) (p : jsProfileData)
    (s : MapState) (yx : ℤ × ℤ) :
    (visitBinNoSkip h p s yx).results =
      if s.bins yx.1 yx.2 + binVoteNS h p yx.1 yx.2 > s.results.weight then
        { weight := s.bins yx.1 yx.2 + binVoteNS h p yx.1 yx.2
          x := dtoi (h.m_bx yx.2.toNat)
          y := dtoi (h.m_by yx.1.toNat) }
      else s.results := by
  dsimp only [visitBinNoSkip, binVoteNS]

lemma binVoteNS_int (h : CircleHough) (p : jsProfileData) {y x : ℤ}
    (hy : 0 ≤ y) (hx : 0 ≤ x) :
    binVoteNS h p y x = h.m_dist.pdf (Real.sqrt ((sqDist h p y x : ℤ) : ℝ)) := by
  rw [binVoteNS, r_sqr_int h p hy hx]

lemma sqrt_2500 : Real.sqrt (((2500 : ℤ) : ℝ)) = 50 := by
  rw [show ((2500 : ℤ) : ℝ) = (50 : ℝ) ^ 2 by norm_num]
  exact Real.sqrt_sq (by norm_num)

lemma wideStep_pdf_50 : wideStepH.m_dist.pdf 50 = 3 / 800 := by
  unfold SymTriangleDist.pdf SymTriangleDist.m_one_over_sigma
  rw [m_dist_mu, m_dist_sigma]
  norm_num [wideStepH]
  rw [abs_of_pos (by norm_num : (0:ℝ) < 1 / 4)]
  norm_num

lemma wideStep_mapNoSkip :
    wideStepH.mapNoSkip [⟨50, 0⟩] = ⟨3 / 800, 0, 0⟩ := by
  have hNS : binVoteNS wideStepH ⟨50, 0⟩ 0 0 = 3 / 800 := by
    rw [binVoteNS_int wideStepH ⟨50, 0⟩ le_rfl le_rfl]
    rw [show sqDist wideStepH ⟨50, 0⟩ 0 0 = 2500 from by decide]
    rw [sqrt_2500]
    exact wideStep_pdf_50
  rw [CircleHough.mapNoSkip, CircleHough.mapStateNoSkip,
    List.foldl_cons, List.foldl_nil]
  dsimp only [visitPointNoSkip]
  rw [wideStep_window, List.foldl_cons, List.foldl_nil]
  rw [visitBinNoSkip_results]
  dsimp only
  rw [zeroBins_zero, hNS, if_pos (by norm_num)]
  rw [dtoi_m_bx, dtoi_m_by]
  norm_num [wideStepH]

/-- Counterexample to C3 as stated: for the detector with radius 100 and
step 200 over the region 0..400 on both axes, the profile `[(50, 0)]`
makes the pre-filtered `detect` skip bin (0, 0) (squared distance 2500 is
below `(radius - step)^2 = 10000`) although the kernel vote there is
`pdf(50) = 3/800 > 0`: the skipped variant returns `{0, 0, 0}` while the
variant without the skip returns `{3/800, 0, 0}`. -/
theorem band_filter_not_transparent :
    wideStepH.mapNoSkip [⟨50, 0⟩] ≠ wideStepH.map [⟨50, 0⟩] := by
  rw [wideStep_map, wideStep_mapNoSkip]
  intro hcon
  have hw := congrArg jsCircleHoughResults.weight hcon
  norm_num at hw

/-! ### The four-point-circle scenario -/

lemma vote4_zero (y x : ℤ) : voteVal demoH ⟨0, -1000⟩ y x = 0 := by
  dsimp only [voteVal]
  rw [if_neg]
  rintro ⟨h1, h2, -, -⟩
  rw [show find_index (-1000 - demoH.m_radius - demoH.cons.step_size)
      demoH.m_cy = 0 from by decide] at h1
  rw [show find_index (-1000 + demoH.cons.step_size) demoH.m_cy = 0 from
    by decide] at h2
  omega

lemma vote_55_exact (p : jsProfileData)
    (hwin : find_index (p.y - demoH.m_radius - demoH.cons.step_size)
        demoH.m_cy ≤ 5 ∧
      (5:ℤ) < find_index (p.y + demoH.cons.step_size) demoH.m_cy ∧
      find_index (p.x - demoH.m_radius - demoH.cons.step_size)
        demoH.m_cx ≤ 5 ∧
      (5:ℤ) < find_index (p.x + demoH.m_radius + demoH.cons.step_size)
        demoH.m_cx)
    (hsq : sqDist demoH p 5 5 = 1000000) :
    voteVal demoH p 5 5 = 1 / 100 := by
  dsimp only [voteVal]
  rw [if_pos hwin]
  rw [binVote_int demoH p (by norm_num) (by norm_num)]
  rw [hsq]
  rw [if_neg (by decide)]
  rw [show Real.sqrt (((1000000:ℤ):ℝ)) = ((1000:ℝ)) from by
    rw [show ((1000000:ℤ):ℝ) = (1000:ℝ)^2 by norm_num]
    exact Real.sqrt_sq (by norm_num)]
  have h1000 : (1000:ℝ) = demoH.m_dist.m_mu := by
    rw [m_dist_mu]
    norm_num [demoH]
  rw [h1000, pdf_at_mu demoH.m_dist (by rw [m_dist_sigma]; norm_num [demoH])]
  rw [m_dist_sigma]
  norm_num [demoH]

lemma vote1_55 : voteVal demoH ⟨1000, 0⟩ 5 5 = 1 / 100 :=
  vote_55_exact ⟨1000, 0⟩ (by decide) (by decide)

lemma vote2_55 : voteVal demoH ⟨-1000, 0⟩ 5 5 = 1 / 100 :=
  vote_55_exact ⟨-1000, 0⟩ (by decide) (by decide)

lemma vote3_55 : voteVal demoH ⟨0, 1000⟩ 5 5 = 1 / 100 :=
  vote_55_exact ⟨0, 1000⟩ (by decide) (by decide)

lemma fourBins_55 : (demoH.mapState fourProfile).bins 5 5 = 3 / 100 := by
  rw [mapState_bins demoH fourProfile (by norm_num) (by decide) (by norm_num)
    (by decide)]
  rw [fourProfile]
  simp only [List.map_cons, List.map_nil, List.sum_cons, List.sum_nil]
  rw [vote1_55, vote2_55, vote3_55, vote4_zero 5 5]
  norm_num

lemma fourBins_lt (y x : ℤ) (hy0 : 0 ≤ y) (hy1 : y < demoH.m_cy.steps)
    (hx0 : 0 ≤ x) (hx1 : x < demoH.m_cx.steps) (hne : ¬(y = 5 ∧ x = 5)) :
    (demoH.mapState fourProfile).bins y x < 3 / 100 := by
  rw [mapState_bins demoH fourProfile hy0 hy1 hx0 hx1]
  rw [fourProfile]
  simp only [List.map_cons, List.map_nil, List.sum_cons, List.sum_nil]
  have hsteps_y : demoH.m_cy.steps = 10 := by decide
  have hsteps_x : demoH.m_cx.steps = 10 := by decide
  rw [hsteps_y] at hy1
  rw [hsteps_x] at hx1
  have hnat : ∀ j : ℕ, j < 10 → ∀ i : ℕ, i < 10 → ¬(j = 5 ∧ i = 5) →
      sqDist demoH ⟨1000, 0⟩ (j:ℤ) (i:ℤ) ≠ demoH.m_radius ^ 2 ∧
      sqDist demoH ⟨-1000, 0⟩ (j:ℤ) (i:ℤ) ≠ demoH.m_radius ^ 2 ∧
      sqDist demoH ⟨0, 1000⟩ (j:ℤ) (i:ℤ) ≠ demoH.m_radius ^ 2 := by
    decide
  have hyx : y = ((y.toNat : ℕ) : ℤ) := (Int.toNat_of_nonneg hy0).symm
  have hxx : x = ((x.toNat : ℕ) : ℤ) := (Int.toNat_of_nonneg hx0).symm
  have hkey := hnat y.toNat (by omega) x.toNat (by omega)
    (by
      rintro ⟨hj, hi⟩
      exact hne ⟨by omega, by omega⟩)
  rw [← hyx, ← hxx] at hkey
  have hstep : ((demoH.cons.step_size : ℤ) : ℝ) = 100 := by
    norm_num [demoH]
  have h1 := voteVal_lt demoH (by decide) ⟨1000, 0⟩ hy0 hx0 hkey.1
  have h2 := voteVal_lt demoH (by decide) ⟨-1000, 0⟩ hy0 hx0 hkey.2.1
  have h3 := voteVal_lt demoH (by decide) ⟨0, 1000⟩ hy0 hx0 hkey.2.2
  rw [hstep] at h1 h2 h3
  have h4 := vote4_zero y x
  linarith

lemma fourPoint_result : demoH.map fourProfile = ⟨3 / 100, 0, 0⟩ := by
  rw [map_eq_of_unique_max demoH (by decide) (by decide) (by decide)
    fourProfile (by norm_num) (by decide) (by norm_num) (by decide)
    fourBins_55 (by norm_num) fourBins_lt]
  rw [dtoi_m_bx, dtoi_m_by]
  norm_num [demoH]

/-- C1 (amended): on the detector with radius 1000 and constraints
{step 100, x and y from -500 to 500}, `detect` on the four-point profile
[(1000, 0), (-1000, 0), (0, 1000), (0, -1000)] returns the peak at center
(0, 0) — bin (5, 5) — with weight 3·0.01 = 0.03, not 0.04: the first three
points each contribute exactly 1/100 to that bin, but (0, -1000)
contributes nothing anywhere because its y window
[find_index(-2100), find_index(-900)) = [0, 0) is empty (the window's
upper y bound is `p.y + step`, not `p.y + radius + step`). -/
theorem fourPoint_peak :
    demoH.map fourProfile = ⟨3 / 100, 0, 0⟩ ∧
    voteVal demoH ⟨1000, 0⟩ 5 5 = 1 / 100 ∧
    voteVal demoH ⟨-1000, 0⟩ 5 5 = 1 / 100 ∧
    voteVal demoH ⟨0, 1000⟩ 5 5 = 1 / 100 ∧
    ∀ y x : ℤ, voteVal demoH ⟨0, -1000⟩ y x = 0 :=
  ⟨fourPoint_result, vote1_55, vote2_55, vote3_55, vote4_zero⟩

/-- Counterexample to C1 as stated: the four-point profile's peak weight
is 3/100, not 4·0.01 = 1/25. -/
theorem fourPoint_cex :
    demoH.map fourProfile ≠ ⟨4 * (1 / 100), 0, 0⟩ := by
  rw [fourPoint_result]
  intro hcon
  have hw := congrArg jsCircleHoughResults.weight hcon
  norm_num at hw
